import Mathlib

/-!
Shallow embedding of `geo_trend_analyzer.py` (class `GeoBeautyTrendAnalyzer`).

Modelling conventions:
* Interest samples are integers (the trends provider reports integer values on a
  0-100 scale); means and scores are exact rationals standing for Python floats.
  Where float representation is observable — the trend thresholds `* 1.15` and
  `* 0.85` — binary64 semantics is modelled exactly: `floatRound` is IEEE 754
  round-to-nearest-even on rationals, and the literals 1.15 and 0.85 are the
  exact rational values of their binary64 representations.
* The provider call inside `search_beauty_trends` (lines 74-99) is modelled by a
  `ProviderOutcome` value: either the whole `try` block raises (`failure`) or it
  yields the `interest_over_time` frame and the `interest_by_region` breakdown.
* `time.sleep(1)` calls are counted explicitly: each function returns, besides
  its Python return value, the number of sleeps it executed.
* An uncaught Python exception is modelled by the `AnalyzeOutcome.crashed`
  constructor carrying the exception's name; `None` returns are `skipped`.
* `self.results` is the explicit state `List ResultRec`, threaded through calls.
-/

namespace GeoTrend

/-- Outcome of the provider interaction inside the `try` block of
`search_beauty_trends`: either some call raises, or both frames are returned. -/
inductive ProviderOutcome where
  | failure
  | success (interest_over_time : List (String × List Int))
      (interest_by_region : List (String × Int))
deriving DecidableEq

/-- The dictionary built at lines 90-95: keyword, both frames, and a timestamp
(abstracted to a natural number). -/
structure TrendData where
  keyword : String
  interest_over_time : List (String × List Int)
  interest_by_region : List (String × Int)
  timestamp : Nat
deriving DecidableEq

/-- Mean of a pandas numeric series, as exact arithmetic. On an empty series
pandas returns NaN; this function is only applied behind non-emptiness guards
(the division-by-zero junk value 0 is never used by a theorem). -/
def seriesMean (l : List Int) : ℚ := (l.sum : ℚ) / (l.length : ℚ)

/-- Maximum of a pandas numeric series (`series.max()`); only applied to
non-empty series (pandas yields NaN on an empty one, and `int(NaN)` raises). -/
def seriesMax : List Int → Int
  | [] => 0
  | x :: xs => xs.foldl max x

/-- Column lookup `df[keyword]` on a dataframe: `none` models the `KeyError`
raised when the column is absent (as with the empty frame pytrends returns for
an unrecognized keyword). -/
def dfColumn (df : List (String × List Int)) (k : String) : Option (List Int) :=
  (df.find? (fun p => p.1 == k)).map (fun p => p.2)

/-- Lines 59-99, `search_beauty_trends`: on success returns the data dict after
executing `time.sleep(1)` once; on any exception the handler logs and returns
`None` without ever reaching the sleep (line 88 is inside the `try`, before the
`return`, and after the provider calls). Second component counts sleeps. -/
def search_beauty_trends (outcome : ProviderOutcome) (keyword : String)
    (now : Nat) : Option TrendData × Nat :=
  match outcome with
  | .failure => (none, 0)
  | .success iot region => (some ⟨keyword, iot, region, now⟩, 1)

/-- Round half to even on exact rationals, yielding an integer: the
tie-breaking rule shared by Python's `round` and by IEEE 754 binary64
arithmetic. -/
def round_half_even (x : ℚ) : Int :=
  if x - (⌊x⌋ : ℚ) < 1 / 2 then ⌊x⌋
  else if (1 / 2 : ℚ) < x - (⌊x⌋ : ℚ) then ⌊x⌋ + 1
  else if ⌊x⌋ % 2 = 0 then ⌊x⌋ else ⌊x⌋ + 1

/-- Round a positive rational to the nearest binary64 float (round half to
even), as an exact rational: the value is scaled into the 53-bit mantissa
range [2^52, 2^53), the mantissa is rounded, and the result is scaled back.
The exponent range is unbounded: none of the quantities this file models
overflow binary64 or reach the subnormal range. -/
def floatRoundPos (x : ℚ) : ℚ :=
  (round_half_even (x / (2 : ℚ) ^ (Int.log 2 x - 52)) : ℚ)
    * (2 : ℚ) ^ (Int.log 2 x - 52)

/-- Round a rational to the nearest binary64 float, exactly as IEEE 754
arithmetic rounds every operation result. -/
def floatRound (x : ℚ) : ℚ :=
  if x = 0 then 0
  else if 0 < x then floatRoundPos x
  else -floatRoundPos (-x)

/-- The exact value of the binary64 literal `1.15` at line 147: 1.15 is not
representable; its mantissa is round_half_even(1.15 * 2^52)
= round_half_even(5179139571476070.4) = 5179139571476070, a double slightly
below 1.15 — which is why the computed cutoff `100 * 1.15` is
114.99999999999999 rather than 115. -/
def float115 : ℚ := 5179139571476070 / 4503599627370496

/-- The exact value of the binary64 literal `0.85` at line 149: its mantissa
is round_half_even(0.85 * 2^53) = round_half_even(7656119366529843.2)
= 7656119366529843, a double slightly below 0.85 (but `100 * 0.85` rounds
back to exactly 85.0). -/
def float85 : ℚ := 7656119366529843 / 9007199254740992

/-- Lines 139-152, `_calculate_trend_direction`, in binary64 arithmetic.
Python's `len(series)//2` is `series.length / 2` (Nat floor division);
`iloc[:n]`/`iloc[n:]` are take/drop, so for odd lengths the extra element
falls into the second half. `.mean()` on an integer series returns the
correctly rounded float64 of the exact mean (the integer sum is exact in
binary64; the model assumes it stays below 2^53, true of any realistic
series of 0-100 samples), and `first_half_mean * 1.15` is an IEEE
multiplication: the exact product of the two doubles, rounded to nearest
even. The comparisons are exact comparisons of doubles. -/
def calculate_trend_direction (series : List Int) : String :=
  if series.length < 2 then "dados insuficientes"
  else
    if floatRound (seriesMean (series.drop (series.length / 2))) >
        floatRound (floatRound (seriesMean (series.take (series.length / 2)))
          * float115) then
      "em alta 📈"
    else if floatRound (seriesMean (series.drop (series.length / 2))) <
        floatRound (floatRound (seriesMean (series.take (series.length / 2)))
          * float85) then
      "em queda 📉"
    else "estável ➡️"

/-- Lines 154-163, `_classify_popularity`. -/
def classify_popularity (score : ℚ) : String :=
  if score ≥ 75 then "Muito popular ⭐⭐⭐⭐⭐"
  else if score ≥ 50 then "Popular ⭐⭐⭐⭐"
  else if score ≥ 25 then "Moderado ⭐⭐⭐"
  else "Baixo ⭐"

/-- The result dictionary built at lines 126-134. The `data` field keeps the
whole `trend_data` dict (its `interest_over_time` frame contains the raw
series under the keyword's column, and the timestamp used by the exporters). -/
structure ResultRec where
  keyword : String
  search_volume : Int
  interest_score : ℚ
  max_interest : Int
  trend_direction : String
  popularity : String
  data : TrendData
deriving DecidableEq

/-- What a call to `analyze_neighborhood_beauty_search` does, as seen by its
caller: raise an exception, return `None`, or return the result dict. -/
inductive AnalyzeOutcome where
  | crashed (msg : String)
  | skipped
  | scored (r : ResultRec)
deriving DecidableEq

/-- Lines 101-137, `analyze_neighborhood_beauty_search`. State in, state out:
the first component is the new `self.results`. The crash cases: a missing
keyword column at line 124 raises `KeyError`; an empty series makes
`interest_series.mean()` NaN, and `int(interest_series.max())` at line 130
raises `ValueError` — both are uncaught, and nothing is appended. The sleep
count is whatever `search_beauty_trends` performed. -/
def analyze_neighborhood_beauty_search (results : List ResultRec)
    (outcome : ProviderOutcome) (keyword : String) (search_volume : Int)
    (now : Nat) : List ResultRec × AnalyzeOutcome × Nat :=
  match search_beauty_trends outcome keyword now with
  | (none, sleeps) => (results, .skipped, sleeps)
  | (some trend_data, sleeps) =>
    match dfColumn trend_data.interest_over_time keyword with
    | none => (results, .crashed "KeyError", sleeps)
    | some interest_series =>
      if interest_series.isEmpty then
        (results, .crashed "ValueError", sleeps)
      else
        let result : ResultRec :=
          { keyword := keyword
            search_volume := search_volume
            interest_score := seriesMean interest_series
            max_interest := seriesMax interest_series
            trend_direction := calculate_trend_direction interest_series
            popularity := classify_popularity (seriesMean interest_series)
            data := trend_data }
        (results ++ [result], .scored result, sleeps)

/-- The 8-item default vocabulary of lines 180-181. -/
def default_keywords : List String :=
  ["botox", "estética", "preenchimento labial", "implante capilar",
   "rejuvenescimento facial", "micropigmentação", "peeling", "dermatologia"]

/-- Lines 178-181: `None` keyword lists are replaced by the default ones. -/
def effective_keywords : Option (List String) → List String
  | none => default_keywords
  | some ks => ks

/-- The outcome of one `analyze_neighborhood_beauty_search` call, which does
not depend on the accumulated results (only the appended record does). -/
def analyze_outcome (outcome : ProviderOutcome) (keyword : String)
    (search_volume : Int) (now : Nat) : AnalyzeOutcome :=
  (analyze_neighborhood_beauty_search [] outcome keyword search_volume now).2.1

/-- The record an outcome contributes to `all_results` (lines 189-190: only
truthy, i.e. non-`None`, results are collected). -/
def scoredOpt : AnalyzeOutcome → Option ResultRec
  | .scored r => some r
  | _ => none

/-- The loop of lines 183-193, one `(keyword, provider outcome)` job per
iteration. Returns the new state, then either the collected `all_results`
list (`Except.ok`) or the uncaught exception that aborted the loop
(`Except.error`), then the list of keywords actually passed to
`analyze_neighborhood_beauty_search`. -/
def run_keywords (results : List ResultRec)
    (jobs : List (String × ProviderOutcome)) (now : Nat) :
    List ResultRec × Except String (List ResultRec) × List String :=
  match jobs with
  | [] => (results, .ok [], [])
  | (kw, oc) :: rest =>
    match analyze_neighborhood_beauty_search results oc kw 100 now with
    | (res1, .crashed e, _) => (res1, .error e, [kw])
    | (res1, .skipped, _) =>
      match run_keywords res1 rest now with
      | (resF, out, calls) => (resF, out, kw :: calls)
    | (res1, .scored r, _) =>
      match run_keywords res1 rest now with
      | (resF, .ok coll, calls) => (resF, .ok (r :: coll), kw :: calls)
      | (resF, .error e, calls) => (resF, .error e, kw :: calls)

/-- Lines 165-193, `search_multiple_beauty_keywords`: substitute the default
vocabulary for `None`, then run the loop; the provider is a function from
keyword to outcome (each keyword is queried once, in order). -/
def search_multiple_beauty_keywords (results : List ResultRec)
    (keywords : Option (List String)) (provider : String → ProviderOutcome)
    (now : Nat) : List ResultRec × Except String (List ResultRec) × List String :=
  run_keywords results ((effective_keywords keywords).map fun kw => (kw, provider kw)) now

/-- Comparator of `sorted(self.results, key=lambda x: x.interest_score,
reverse=True)`. CPython's `sorted` is a stable sort, and with `reverse=True`
equal keys keep their original relative order; `List.mergeSort` with this
comparator has exactly that specification. -/
def scoreDescLe (a b : ResultRec) : Bool := decide (b.interest_score ≤ a.interest_score)

/-- Lines 195-215, `get_top_beauty_trends`: empty guard, stable descending
sort by `interest_score`, then `[:top_n]`. -/
def get_top_beauty_trends (results : List ResultRec) (top_n : Nat) : List ResultRec :=
  if results.isEmpty then []
  else (results.mergeSort scoreDescLe).take top_n

/-- `round(score, 2)` as used at line 228: Python's banker's rounding of
`x*100`; float-representation artifacts are abstracted to exact rationals
(no claim tests a representation-sensitive rounding boundary here). -/
def round2 (x : ℚ) : ℚ := (round_half_even (x * 100) : ℚ) / 100

/-- One row dict of the CSV export (lines 225-233). -/
structure CsvRow where
  palavra_chave : String
  volume_de_busca : Int
  score_de_interesse : ℚ
  interesse_maximo : Int
  tendencia : String
  popularidade : String
  data : Nat
deriving DecidableEq

/-- Row built from one result (lines 225-233): the score is rounded to two
decimals before the frame is sorted. -/
def csvRowOf (r : ResultRec) : CsvRow :=
  { palavra_chave := r.keyword
    volume_de_busca := r.search_volume
    score_de_interesse := round2 r.interest_score
    interesse_maximo := r.max_interest
    tendencia := r.trend_direction
    popularidade := r.popularity
    data := r.data.timestamp }

/-- Comparator of `df.sort_values('Score de Interesse', ascending=False)`.
pandas' default quicksort leaves the order of tied rows unspecified; the model
determinizes it with a stable sort, and no theorem relies on tie order here. -/
def csvRowLe (a b : CsvRow) : Bool := decide (b.score_de_interesse ≤ a.score_de_interesse)

/-- Lines 217-240, `export_to_csv`: `None` and no rows on an empty result set,
otherwise the sorted rows are written and the filename is returned. -/
def export_to_csv (results : List ResultRec) (filename : String) :
    Option String × List CsvRow :=
  if results.isEmpty then (none, [])
  else (some filename, (results.map csvRowOf).mergeSort csvRowLe)

/-- The operations a `GeoBeautyTrendAnalyzer` instance exposes, for stating
lifetime invariants of `self.results`. -/
inductive Op where
  | analyze (outcome : ProviderOutcome) (keyword : String) (search_volume : Int) (now : Nat)
  | top (n : Nat)
  | exportCsv (filename : String)
  | exportJson (filename : String)
  | printReport

/-- Effect of each operation on `self.results`: only
`analyze_neighborhood_beauty_search` (line 136) writes to it; the ranking,
export and report methods build fresh lists and never reassign it. -/
def step (results : List ResultRec) : Op → List ResultRec
  | .analyze oc kw sv now => (analyze_neighborhood_beauty_search results oc kw sv now).1
  | .top _ => results
  | .exportCsv _ => results
  | .exportJson _ => results
  | .printReport => results

/-- State of `self.results` after a sequence of operations on a fresh
instance (`self.results = []` at line 57). -/
def run_ops (ops : List Op) : List ResultRec := ops.foldl step []

/-- A sample trend-data payload used by concrete witnesses. -/
def sampleData (kw : String) (series : List Int) : TrendData :=
  { keyword := kw, interest_over_time := [(kw, series)],
    interest_by_region := [], timestamp := 0 }

/-- A sample scored record with interest score 80. -/
def resA : ResultRec :=
  { keyword := "A", search_volume := 100, interest_score := 80,
    max_interest := 80, trend_direction := "estável ➡️",
    popularity := "Muito popular ⭐⭐⭐⭐⭐", data := sampleData "A" [80, 80] }

/-- A second sample record with the same interest score 80. -/
def resB : ResultRec :=
  { resA with keyword := "B", data := sampleData "B" [80, 80] }

/-- A one-operation sample trace: one successful analysis of the spec's
`[10, 20, 30, 40]` scenario series. -/
def sampleOps : List Op :=
  [Op.analyze (ProviderOutcome.success [("botox", [10, 20, 30, 40])] []) "botox" 100 0]

/-- The record that the sample trace appends (its interest score evaluates to
25, its maximum to 40, its direction to RISING, its tier to MODERATE). -/
def sampleResult : ResultRec :=
  { keyword := "botox", search_volume := 100,
    interest_score := seriesMean [10, 20, 30, 40],
    max_interest := seriesMax [10, 20, 30, 40],
    trend_direction := calculate_trend_direction [10, 20, 30, 40],
    popularity := classify_popularity (seriesMean [10, 20, 30, 40]),
    data := sampleData "botox" [10, 20, 30, 40] }

/-- Consistency of one scored record with its raw series: the series is the
column stored for the record's keyword inside its `data` payload, it is
non-empty, the record's `interest_score` is its arithmetic mean, and the
record's `max_interest` is its maximum sample (a member of the series that
bounds every sample). -/
def ScoreInvariant (r : ResultRec) : Prop :=
  ∃ series : List Int,
    dfColumn r.data.interest_over_time r.keyword = some series
    ∧ series ≠ []
    ∧ r.interest_score = seriesMean series
    ∧ r.max_interest = seriesMax series
    ∧ seriesMax series ∈ series
    ∧ ∀ x ∈ series, x ≤ seriesMax series

/-! Helper lemmas shared by the claim theorems. -/

/-- The mean of a series of nonnegative samples is nonnegative (also for the
empty series, whose junk mean is 0). -/
theorem seriesMean_nonneg (l : List Int) (h : ∀ x ∈ l, 0 ≤ x) :
    0 ≤ seriesMean l := by
  unfold seriesMean
  apply div_nonneg
  · exact_mod_cast List.sum_nonneg h
  · exact_mod_cast Nat.zero_le _

/-- `round_half_even` below the tie point returns the floor. -/
theorem round_half_even_low (x : ℚ) (n : ℤ) (h1 : (n : ℚ) ≤ x)
    (h2 : x < (n : ℚ) + 1 / 2) : round_half_even x = n := by
  have hf : ⌊x⌋ = n := Int.floor_eq_iff.mpr ⟨h1, by linarith⟩
  rw [round_half_even, hf, if_pos (by linarith)]

/-- `round_half_even` above the tie point returns the ceiling. -/
theorem round_half_even_high (x : ℚ) (n : ℤ) (h1 : (n : ℚ) + 1 / 2 < x)
    (h2 : x < (n : ℚ) + 1) : round_half_even x = n + 1 := by
  have hf : ⌊x⌋ = n := Int.floor_eq_iff.mpr ⟨by linarith, by linarith⟩
  rw [round_half_even, hf, if_neg (by linarith), if_pos (by linarith)]

/-- `round_half_even` is within half of its input. -/
theorem round_half_even_err (x : ℚ) :
    |((round_half_even x : ℤ) : ℚ) - x| ≤ 1 / 2 := by
  have hf1 : ((⌊x⌋ : ℤ) : ℚ) ≤ x := Int.floor_le x
  have hf2 : x < ⌊x⌋ + 1 := Int.lt_floor_add_one x
  rw [round_half_even]
  by_cases h1 : x - (⌊x⌋ : ℚ) < 1 / 2
  · rw [if_pos h1, abs_le]
    constructor <;> linarith
  · rw [if_neg h1]
    by_cases h2 : (1 / 2 : ℚ) < x - (⌊x⌋ : ℚ)
    · rw [if_pos h2, abs_le]
      constructor <;> push_cast <;> linarith
    · rw [if_neg h2]
      by_cases h3 : ⌊x⌋ % 2 = 0
      · rw [if_pos h3, abs_le]
        constructor <;> linarith
      · rw [if_neg h3, abs_le]
        constructor <;> push_cast <;> linarith

/-- Base-2 integer logarithm from an explicit power-of-two bracketing. -/
theorem log2_eq_of_bracket (x : ℚ) (n : ℤ) (hx : 0 < x)
    (h1 : (2 : ℚ) ^ n ≤ x) (h2 : x < (2 : ℚ) ^ (n + 1)) :
    Int.log 2 x = n := by
  have hA : n ≤ Int.log 2 x := by
    rw [← Int.zpow_le_iff_le_log (by norm_num) hx]
    push_cast
    exact h1
  have hB : Int.log 2 x < n + 1 := by
    rw [← Int.lt_zpow_iff_log_lt (by norm_num) hx]
    push_cast
    exact h2
  omega

/-- Evaluate `floatRound` from an explicit exponent bracketing and mantissa:
if `2^52 * p ≤ x < 2^53 * p` with `p = 2^e`, the result is the rounded
mantissa times `p`. -/
theorem floatRound_val (x p : ℚ) (e m : ℤ) (hx : 0 < x) (hp : p = (2 : ℚ) ^ e)
    (h1 : 2 ^ 52 * p ≤ x) (h2 : x < 2 ^ 53 * p)
    (hm : round_half_even (x / p) = m) :
    floatRound x = (m : ℚ) * p := by
  subst hp
  have hlog : Int.log 2 x = e + 52 := by
    apply log2_eq_of_bracket x (e + 52) hx
    · rw [zpow_add₀ (by norm_num : (2:ℚ) ≠ 0)]
      calc (2:ℚ) ^ e * (2:ℚ) ^ (52:ℤ) = 2 ^ 52 * (2:ℚ) ^ e := by
            rw [show ((52:ℤ)) = ((52:ℕ):ℤ) from rfl, zpow_natCast]
            ring
        _ ≤ x := h1
    · calc x < 2 ^ 53 * (2:ℚ) ^ e := h2
        _ = (2:ℚ) ^ (e + 52 + 1) := by
            rw [zpow_add₀ (by norm_num : (2:ℚ) ≠ 0),
              zpow_add₀ (by norm_num : (2:ℚ) ≠ 0),
              show ((52:ℤ)) = ((52:ℕ):ℤ) from rfl, zpow_natCast,
              show ((1:ℤ)) = ((1:ℕ):ℤ) from rfl, zpow_natCast]
            ring
  rw [floatRound, if_neg (ne_of_gt hx), if_pos hx, floatRoundPos, hlog,
    show e + 52 - 52 = e from by omega, hm]

/-- A nonnegative rational is rounded to a binary64 value within a relative
error of 2^-53 (no overflow in the modelled range). -/
theorem floatRound_err (x : ℚ) (hx : 0 ≤ x) : |floatRound x - x| ≤ x / 2 ^ 53 := by
  rcases eq_or_lt_of_le hx with heq | hpos
  · rw [← heq]
    simp [floatRound]
  · rw [floatRound, if_neg (ne_of_gt hpos), if_pos hpos, floatRoundPos]
    have hpow : (0:ℚ) < (2:ℚ) ^ (Int.log 2 x - 52) := by positivity
    have herr := round_half_even_err (x / (2:ℚ) ^ (Int.log 2 x - 52))
    have hxlb : (2:ℚ) ^ (Int.log 2 x) ≤ x := by
      have h := Int.zpow_log_le_self (b := 2) (by norm_num) hpos
      push_cast at h
      exact h
    have hfact : ((round_half_even (x / (2:ℚ) ^ (Int.log 2 x - 52)) : ℤ) : ℚ)
          * (2:ℚ) ^ (Int.log 2 x - 52) - x
        = (((round_half_even (x / (2:ℚ) ^ (Int.log 2 x - 52)) : ℤ) : ℚ)
          - x / (2:ℚ) ^ (Int.log 2 x - 52)) * (2:ℚ) ^ (Int.log 2 x - 52) := by
      field_simp
    rw [hfact, abs_mul, abs_of_pos hpow]
    have step1 : |((round_half_even (x / (2:ℚ) ^ (Int.log 2 x - 52)) : ℤ) : ℚ)
          - x / (2:ℚ) ^ (Int.log 2 x - 52)| * (2:ℚ) ^ (Int.log 2 x - 52)
        ≤ (1 / 2) * (2:ℚ) ^ (Int.log 2 x - 52) :=
      mul_le_mul_of_nonneg_right herr (le_of_lt hpow)
    refine le_trans step1 ?_
    have hsplit : (2:ℚ) ^ (Int.log 2 x)
        = (2:ℚ) ^ (Int.log 2 x - 52) * 2 ^ 52 := by
      rw [← zpow_natCast (2:ℚ) 52, ← zpow_add₀ (by norm_num : (2:ℚ) ≠ 0)]
      norm_num
    rw [hsplit] at hxlb
    rw [le_div_iff₀ (by norm_num : (0:ℚ) < 2 ^ 53)]
    nlinarith [hxlb]

/-- Rounding to binary64 preserves nonnegativity. -/
theorem floatRound_nonneg (x : ℚ) (hx : 0 ≤ x) : 0 ≤ floatRound x := by
  have herr := floatRound_err x hx
  rw [abs_le] at herr
  have hsmall : x / 2 ^ 53 ≤ x := div_le_self hx (by norm_num)
  linarith [herr.1]

/-- For a nonnegative first-half mean, the rounded FALLING cutoff never
exceeds the rounded RISING cutoff (0.85 and 1.15 are far enough apart that
one rounding each cannot cross them). -/
theorem float_threshold_le (fm : ℚ) (hfm : 0 ≤ fm) :
    floatRound (fm * float85) ≤ floatRound (fm * float115) := by
  rcases eq_or_lt_of_le hfm with heq | hpos
  · rw [← heq]
    simp [floatRound]
  · have h85pos : (0:ℚ) < fm * float85 := by
      rw [float85]
      positivity
    have h115pos : (0:ℚ) < fm * float115 := by
      rw [float115]
      positivity
    have e85 := floatRound_err (fm * float85) (le_of_lt h85pos)
    have e115 := floatRound_err (fm * float115) (le_of_lt h115pos)
    rw [abs_le] at e85 e115
    have hconst : float85 * (1 + 1 / 2 ^ 53) ≤ float115 * (1 - 1 / 2 ^ 53) := by
      rw [float85, float115]
      norm_num
    have hkey := mul_le_mul_of_nonneg_left hconst hfm
    have hr1 : fm * (float85 * (1 + 1 / 2 ^ 53))
        = fm * float85 + fm * float85 / 2 ^ 53 := by ring
    have hr2 : fm * (float115 * (1 - 1 / 2 ^ 53))
        = fm * float115 - fm * float115 / 2 ^ 53 := by ring
    linarith [e85.2, e115.1]

/-- 100.0 is exactly representable: rounding is the identity on it. -/
theorem floatRound_100 : floatRound 100 = 100 := by
  have h := floatRound_val 100 (1 / 70368744177664) (-46) 7036874417766400
    (by norm_num) (by norm_num) (by norm_num) (by norm_num)
    (round_half_even_low _ _ (by norm_num) (by norm_num))
  rw [h]
  norm_num

/-- 115.0 is exactly representable. -/
theorem floatRound_115 : floatRound 115 = 115 := by
  have h := floatRound_val 115 (1 / 70368744177664) (-46) 8092405580431360
    (by norm_num) (by norm_num) (by norm_num) (by norm_num)
    (round_half_even_low _ _ (by norm_num) (by norm_num))
  rw [h]
  norm_num

/-- 85.0 is exactly representable. -/
theorem floatRound_85 : floatRound 85 = 85 := by
  have h := floatRound_val 85 (1 / 70368744177664) (-46) 5981343255101440
    (by norm_num) (by norm_num) (by norm_num) (by norm_num)
    (round_half_even_low _ _ (by norm_num) (by norm_num))
  rw [h]
  norm_num

/-- The binary64 product `100 * 1.15` is the double 114.99999999999999
(mantissa 8092405580431359 at exponent -46), strictly below 115. -/
theorem floatRound_100_mul_115 :
    floatRound (100 * float115) = 8092405580431359 / 70368744177664 := by
  have h := floatRound_val (100 * float115) (1 / 70368744177664) (-46)
    8092405580431359
    (by rw [float115]; norm_num) (by norm_num)
    (by rw [float115]; norm_num) (by rw [float115]; norm_num)
    (round_half_even_low _ _ (by rw [float115]; norm_num)
      (by rw [float115]; norm_num))
  rw [h]
  norm_num

/-- The binary64 product `100 * 0.85` rounds back to exactly 85.0. -/
theorem floatRound_100_mul_85 : floatRound (100 * float85) = 85 := by
  have h := floatRound_val (100 * float85) (1 / 70368744177664) (-46)
    5981343255101440
    (by rw [float85]; norm_num) (by norm_num)
    (by rw [float85]; norm_num) (by rw [float85]; norm_num)
    (show round_half_even (100 * float85 / (1 / 70368744177664))
        = 5981343255101439 + 1 from
      round_half_even_high _ _ (by rw [float85]; norm_num)
        (by rw [float85]; norm_num))
  rw [h]
  norm_num

/-- At first-half mean 100 and second-half mean exactly 115, the program's
binary64 cutoff `100 * 1.15` = 114.99999999999999 is exceeded: RISING. -/
theorem trend_115_boundary :
    calculate_trend_direction [100, 100, 115, 115] = "em alta 📈" := by
  have ht : seriesMean (List.take ([(100:ℤ), 100, 115, 115].length / 2)
      [(100:ℤ), 100, 115, 115]) = 100 := by
    norm_num [seriesMean]
  have hd : seriesMean (List.drop ([(100:ℤ), 100, 115, 115].length / 2)
      [(100:ℤ), 100, 115, 115]) = 115 := by
    norm_num [seriesMean]
  rw [calculate_trend_direction, if_neg (by norm_num), ht, hd,
    floatRound_100, floatRound_115, floatRound_100_mul_115,
    if_pos (by norm_num)]

/-- At first-half mean 100 and second-half mean exactly 85, the cutoff
`100 * 0.85` rounds to exactly 85.0, so 85 is not strictly below it: STABLE. -/
theorem trend_85_boundary :
    calculate_trend_direction [100, 100, 85, 85] = "estável ➡️" := by
  have ht : seriesMean (List.take ([(100:ℤ), 100, 85, 85].length / 2)
      [(100:ℤ), 100, 85, 85]) = 100 := by
    norm_num [seriesMean]
  have hd : seriesMean (List.drop ([(100:ℤ), 100, 85, 85].length / 2)
      [(100:ℤ), 100, 85, 85]) = 85 := by
    norm_num [seriesMean]
  rw [calculate_trend_direction, if_neg (by norm_num), ht, hd,
    floatRound_100, floatRound_85, floatRound_100_mul_115,
    floatRound_100_mul_85, if_neg (by norm_num), if_neg (by norm_num)]

/-! Claim theorems. -/

/-- C1, as stated, is false: when the provider succeeds but the retrieved
interest series is empty, `analyze_neighborhood_beauty_search` does not
surface a skipped/null result — `int(interest_series.max())` raises an
uncaught `ValueError` (there is no `InsufficientDataError` in the code). -/
theorem C1_counterexample :
    analyze_neighborhood_beauty_search [] (ProviderOutcome.success [("botox", [])] []) "botox" 100 0
      = ([], AnalyzeOutcome.crashed "ValueError", 1)
    ∧ AnalyzeOutcome.crashed "ValueError" ≠ AnalyzeOutcome.skipped := by
  refine ⟨rfl, ?_⟩
  intro h
  exact AnalyzeOutcome.noConfusion h

/-- C1 (amended): for every keyword whose retrieved interest series is empty,
scoring raises an uncaught exception (a `ValueError` from `int(NaN)`) that
propagates to the caller instead of a skipped/null result, and no
ScoredResult for that keyword is appended to the ResultSet. -/
theorem C1_empty_series_crashes (results : List ResultRec)
    (iot : List (String × List Int)) (region : List (String × Int))
    (kw : String) (sv : Int) (now : Nat) (h : dfColumn iot kw = some []) :
    analyze_neighborhood_beauty_search results (ProviderOutcome.success iot region) kw sv now
      = (results, AnalyzeOutcome.crashed "ValueError", 1) := by
  simp [analyze_neighborhood_beauty_search, search_beauty_trends, h]

/-- C1 witness: the amended claim at a concrete empty-series input. -/
theorem C1_empty_series_crashes_witness :
    analyze_neighborhood_beauty_search [] (ProviderOutcome.success [("botox", [])] []) "botox" 100 0
      = ([], AnalyzeOutcome.crashed "ValueError", 1) :=
  C1_empty_series_crashes [] [("botox", [])] [] "botox" 100 0 rfl

/-- C2, as stated, is false at its own asserted boundary: with first-half
mean 100 and second-half mean exactly 115 the program reports RISING, not
STABLE — the binary64 literal 1.15 rounds to a double slightly below 1.15,
so the computed cutoff `100 * 1.15` is 114.99999999999999 and a second-half
mean of exactly 115 strictly exceeds it. -/
theorem C2_counterexample :
    calculate_trend_direction [100, 100, 115, 115] = "em alta 📈"
    ∧ "em alta 📈" ≠ "estável ➡️" :=
  ⟨trend_115_boundary, by decide⟩

/-- C2 (amended): for every series of (provider-clamped, hence nonnegative)
samples, the direction is INSUFFICIENT_DATA when the length is below 2;
otherwise, splitting at floor(length/2) with the extra element of an
odd-length series in the second half and computing in binary64 as the
program does, it is RISING iff the second-half mean exceeds the rounded
product of the first-half mean with the double nearest 1.15, FALLING iff it
is below the rounded product with the double nearest 0.85, STABLE otherwise.
Because 1.15 rounds below 1.15 in binary64, a second-half mean of exactly
115 against a first-half mean of 100 yields RISING (the computed cutoff is
114.99999999999999), while exactly 85 yields STABLE (100 * 0.85 rounds back
to exactly 85.0). -/
theorem C2_trend_direction_spec (s : List Int) (hpos : ∀ x ∈ s, 0 ≤ x) :
    (s.length < 2 → calculate_trend_direction s = "dados insuficientes")
    ∧ (2 ≤ s.length →
        ((calculate_trend_direction s = "em alta 📈" ↔
            floatRound (seriesMean (s.drop (s.length / 2))) >
              floatRound (floatRound (seriesMean (s.take (s.length / 2)))
                * float115))
        ∧ (calculate_trend_direction s = "em queda 📉" ↔
            floatRound (seriesMean (s.drop (s.length / 2))) <
              floatRound (floatRound (seriesMean (s.take (s.length / 2)))
                * float85))
        ∧ (calculate_trend_direction s = "estável ➡️" ↔
            (¬ floatRound (seriesMean (s.drop (s.length / 2))) >
                floatRound (floatRound (seriesMean (s.take (s.length / 2)))
                  * float115)
             ∧ ¬ floatRound (seriesMean (s.drop (s.length / 2))) <
                floatRound (floatRound (seriesMean (s.take (s.length / 2)))
                  * float85)))))
    ∧ calculate_trend_direction [100, 100, 115, 115] = "em alta 📈"
    ∧ calculate_trend_direction [100, 100, 85, 85] = "estável ➡️" := by
  refine ⟨?_, ?_, trend_115_boundary, trend_85_boundary⟩
  · intro h
    rw [calculate_trend_direction, if_pos h]
  · intro h2
    have hnot : ¬ s.length < 2 := by omega
    have hfm : 0 ≤ floatRound (seriesMean (s.take (s.length / 2))) :=
      floatRound_nonneg _
        (seriesMean_nonneg _ (fun x hx => hpos x (List.take_subset _ _ hx)))
    have hth := float_threshold_le
      (floatRound (seriesMean (s.take (s.length / 2)))) hfm
    by_cases h1 : floatRound (seriesMean (s.drop (s.length / 2))) >
        floatRound (floatRound (seriesMean (s.take (s.length / 2))) * float115)
    · rw [calculate_trend_direction, if_neg hnot, if_pos h1]
      refine ⟨⟨fun _ => h1, fun _ => rfl⟩, ?_, ?_⟩
      · constructor
        · intro h; exact absurd h (by decide)
        · intro h; exfalso; linarith
      · constructor
        · intro h; exact absurd h (by decide)
        · intro h; exact absurd h1 h.1
    · rw [calculate_trend_direction, if_neg hnot, if_neg h1]
      by_cases hq : floatRound (seriesMean (s.drop (s.length / 2))) <
          floatRound (floatRound (seriesMean (s.take (s.length / 2))) * float85)
      · rw [if_pos hq]
        refine ⟨?_, ⟨fun _ => hq, fun _ => rfl⟩, ?_⟩
        · constructor
          · intro h; exact absurd h (by decide)
          · intro h; exact absurd h h1
        · constructor
          · intro h; exact absurd h (by decide)
          · intro h; exact absurd hq h.2
      · rw [if_neg hq]
        refine ⟨?_, ?_, ⟨fun _ => ⟨h1, hq⟩, fun _ => rfl⟩⟩
        · constructor
          · intro h; exact absurd h (by decide)
          · intro h; exact absurd h h1
        · constructor
          · intro h; exact absurd h (by decide)
          · intro h; exact absurd h hq

/-- C2 witness: the amended characterization applied at a concrete series
(all hypotheses discharged), projecting the boundary fact that a second-half
mean of exactly 115 against a first-half mean of 100 is RISING. -/
theorem C2_trend_direction_spec_witness :
    calculate_trend_direction [100, 100, 115, 115] = "em alta 📈" :=
  (C2_trend_direction_spec [] (fun x hx => absurd hx (List.not_mem_nil x))).2.2.1
/-- C3: the popularity tier is VERY_POPULAR iff score ≥ 75, else POPULAR iff
score ≥ 50, else MODERATE iff score ≥ 25, else LOW, with lower bounds
inclusive and evaluation top-down; in particular 75.0 → VERY_POPULAR,
74.999 → POPULAR, 50.0 → POPULAR, 24.999 → LOW. -/
theorem C3_popularity_tiers (score : ℚ) :
    (classify_popularity score = "Muito popular ⭐⭐⭐⭐⭐" ↔ 75 ≤ score)
    ∧ (score < 75 → (classify_popularity score = "Popular ⭐⭐⭐⭐" ↔ 50 ≤ score))
    ∧ (score < 50 → (classify_popularity score = "Moderado ⭐⭐⭐" ↔ 25 ≤ score))
    ∧ (score < 25 → classify_popularity score = "Baixo ⭐")
    ∧ classify_popularity 75 = "Muito popular ⭐⭐⭐⭐⭐"
    ∧ classify_popularity (74999 / 1000) = "Popular ⭐⭐⭐⭐"
    ∧ classify_popularity 50 = "Popular ⭐⭐⭐⭐"
    ∧ classify_popularity (24999 / 1000) = "Baixo ⭐" := by
  refine ⟨?_, ?_, ?_, ?_, by norm_num [classify_popularity],
    by norm_num [classify_popularity], by norm_num [classify_popularity],
    by norm_num [classify_popularity]⟩
  · by_cases h75 : 75 ≤ score
    · rw [classify_popularity, if_pos h75]
      exact ⟨fun _ => h75, fun _ => rfl⟩
    · rw [classify_popularity, if_neg h75]
      constructor
      · intro h
        by_cases h50 : 50 ≤ score
        · rw [if_pos h50] at h; exact absurd h (by decide)
        · rw [if_neg h50] at h
          by_cases h25 : 25 ≤ score
          · rw [if_pos h25] at h; exact absurd h (by decide)
          · rw [if_neg h25] at h; exact absurd h (by decide)
      · intro h; exact absurd h h75
  · intro hlt
    rw [classify_popularity, if_neg (by exact fun h => absurd h (by linarith))]
    by_cases h50 : 50 ≤ score
    · rw [if_pos h50]
      exact ⟨fun _ => h50, fun _ => rfl⟩
    · rw [if_neg h50]
      constructor
      · intro h
        by_cases h25 : 25 ≤ score
        · rw [if_pos h25] at h; exact absurd h (by decide)
        · rw [if_neg h25] at h; exact absurd h (by decide)
      · intro h; exact absurd h h50
  · intro hlt
    rw [classify_popularity, if_neg (by exact fun h => absurd h (by linarith)),
      if_neg (by exact fun h => absurd h (by linarith))]
    by_cases h25 : 25 ≤ score
    · rw [if_pos h25]
      exact ⟨fun _ => h25, fun _ => rfl⟩
    · rw [if_neg h25]
      exact ⟨fun h => absurd h (by decide), fun h => absurd h h25⟩
  · intro hlt
    rw [classify_popularity, if_neg (by exact fun h => absurd h (by linarith)),
      if_neg (by exact fun h => absurd h (by linarith)),
      if_neg (by exact fun h => absurd h (by linarith))]

/-- C3 witness: the tier characterization applied at score 0 yields LOW. -/
theorem C3_popularity_tiers_witness :
    classify_popularity 0 = "Baixo ⭐" :=
  (C3_popularity_tiers 0).2.2.2.1 (by norm_num)

/-- C10: the popularity classifier is total over all rational scores with no
range validation: every score lands in exactly one of the four tiers (never
raising), an out-of-range score above 100 is VERY_POPULAR, and a negative
score is LOW. -/
theorem C10_classifier_total_no_validation (score : ℚ) :
    (100 < score → classify_popularity score = "Muito popular ⭐⭐⭐⭐⭐")
    ∧ (score < 0 → classify_popularity score = "Baixo ⭐")
    ∧ (classify_popularity score = "Muito popular ⭐⭐⭐⭐⭐"
       ∨ classify_popularity score = "Popular ⭐⭐⭐⭐"
       ∨ classify_popularity score = "Moderado ⭐⭐⭐"
       ∨ classify_popularity score = "Baixo ⭐") := by
  refine ⟨?_, ?_, ?_⟩
  · intro h
    rw [classify_popularity, if_pos (by linarith)]
  · intro h
    rw [classify_popularity, if_neg (by exact fun hc => absurd hc (by linarith)),
      if_neg (by exact fun hc => absurd hc (by linarith)),
      if_neg (by exact fun hc => absurd hc (by linarith))]
  · unfold classify_popularity
    by_cases h75 : 75 ≤ score
    · left; rw [if_pos h75]
    · rw [if_neg h75]
      by_cases h50 : 50 ≤ score
      · right; left; rw [if_pos h50]
      · rw [if_neg h50]
        by_cases h25 : 25 ≤ score
        · right; right; left; rw [if_pos h25]
        · right; right; right; rw [if_neg h25]

/-- C10 witness: an out-of-range score of 150 is classified VERY_POPULAR. -/
theorem C10_classifier_total_no_validation_witness :
    classify_popularity 150 = "Muito popular ⭐⭐⭐⭐⭐" :=
  (C10_classifier_total_no_validation 150).1 (by norm_num)

/-- C6, as stated, is false: on a failing provider call the except handler of
`search_beauty_trends` returns before reaching `time.sleep(1)` (line 88 sits
inside the `try`), so zero pauses occur instead of the claimed one. -/
theorem C6_counterexample :
    (search_beauty_trends ProviderOutcome.failure "botox" 0).2 = 0
    ∧ (0 : Nat) ≠ 1 := by
  exact ⟨rfl, by decide⟩

/-- C6 (amended): the fixed pause runs exactly once after each successful
provider call and is skipped when the call raises, and
`analyze_neighborhood_beauty_search` performs exactly the pauses of its one
`search_beauty_trends` call. -/
theorem C6_pause_only_on_success (oc : ProviderOutcome) (kw : String) (now : Nat) :
    (oc = ProviderOutcome.failure → (search_beauty_trends oc kw now).2 = 0)
    ∧ (∀ iot region, oc = ProviderOutcome.success iot region →
        (search_beauty_trends oc kw now).2 = 1)
    ∧ (∀ results sv, (analyze_neighborhood_beauty_search results oc kw sv now).2.2
        = (search_beauty_trends oc kw now).2) := by
  cases oc with
  | failure =>
    exact ⟨fun _ => rfl, ⟨fun iot region h => ProviderOutcome.noConfusion h,
      fun results sv => rfl⟩⟩
  | success iot region =>
    refine ⟨fun h => ProviderOutcome.noConfusion h,
      ⟨fun _ _ _ => rfl, fun results sv => ?_⟩⟩
    cases h : dfColumn iot kw with
    | none => simp [analyze_neighborhood_beauty_search, search_beauty_trends, h]
    | some series =>
      by_cases hs : series.isEmpty <;>
        simp [analyze_neighborhood_beauty_search, search_beauty_trends, h, hs]

/-- C6 witness: the amended pause accounting at concrete calls. -/
theorem C6_pause_only_on_success_witness :
    (search_beauty_trends (ProviderOutcome.success [] []) "botox" 7).2 = 1 :=
  (C6_pause_only_on_success (ProviderOutcome.success [] []) "botox" 7).2.1 [] [] rfl

/-- A left fold of `max` yields the seed or one of the folded elements. -/
theorem foldlMax_choice (x : Int) (xs : List Int) :
    xs.foldl max x = x ∨ xs.foldl max x ∈ xs := by
  induction xs generalizing x with
  | nil => exact Or.inl rfl
  | cons y ys ih =>
    rw [List.foldl_cons]
    rcases ih (max x y) with h | h
    · rcases max_choice x y with hm | hm
      · exact Or.inl (by rw [h, hm])
      · exact Or.inr (by rw [h, hm]; exact List.mem_cons_self y ys)
    · exact Or.inr (List.mem_cons_of_mem y h)

/-- A left fold of `max` bounds the seed and every folded element. -/
theorem le_foldlMax (x : Int) (xs : List Int) :
    x ≤ xs.foldl max x ∧ ∀ y ∈ xs, y ≤ xs.foldl max x := by
  induction xs generalizing x with
  | nil => exact ⟨le_refl x, fun y hy => absurd hy (List.not_mem_nil y)⟩
  | cons z zs ih =>
    obtain ⟨h1, h2⟩ := ih (max x z)
    rw [List.foldl_cons]
    refine ⟨le_trans (le_max_left x z) h1, fun y hy => ?_⟩
    rcases List.mem_cons.mp hy with rfl | hy
    · exact le_trans (le_max_right x y) h1
    · exact h2 y hy

/-- The maximum of a non-empty series is one of its samples. -/
theorem seriesMax_mem (l : List Int) (h : l ≠ []) : seriesMax l ∈ l := by
  cases l with
  | nil => exact absurd rfl h
  | cons x xs =>
    show xs.foldl max x ∈ x :: xs
    rcases foldlMax_choice x xs with h1 | h1
    · rw [h1]; exact List.mem_cons_self x xs
    · exact List.mem_cons_of_mem x h1

/-- The maximum of a series bounds every sample. -/
theorem le_seriesMax (l : List Int) : ∀ x ∈ l, x ≤ seriesMax l := by
  intro x hx
  cases l with
  | nil => exact absurd hx (List.not_mem_nil x)
  | cons y ys =>
    show x ≤ ys.foldl max y
    rcases List.mem_cons.mp hx with rfl | hx
    · exact (le_foldlMax x ys).1
    · exact (le_foldlMax y ys).2 x hx

/-- One analysis call appends exactly the scored record (if any); its outcome
and sleep count do not depend on the accumulated state. -/
theorem analyze_step_form (st : List ResultRec) (oc : ProviderOutcome)
    (kw : String) (sv : Int) (now : Nat) :
    analyze_neighborhood_beauty_search st oc kw sv now
      = (st ++ (scoredOpt (analyze_outcome oc kw sv now)).toList,
         analyze_outcome oc kw sv now, (search_beauty_trends oc kw now).2) := by
  cases oc with
  | failure =>
    simp [analyze_neighborhood_beauty_search, search_beauty_trends,
      analyze_outcome, scoredOpt]
  | success iot region =>
    cases h : dfColumn iot kw with
    | none =>
      simp [analyze_neighborhood_beauty_search, search_beauty_trends,
        analyze_outcome, scoredOpt, h]
    | some series =>
      by_cases hs : series.isEmpty <;>
        simp [analyze_neighborhood_beauty_search, search_beauty_trends,
          analyze_outcome, scoredOpt, h, hs]

/-- Every operation leaves the existing results in place, appending at most
one record at the end. -/
theorem step_extends (st : List ResultRec) (op : Op) :
    ∃ tail, step st op = st ++ tail := by
  cases op with
  | analyze oc kw sv now =>
    refine ⟨(scoredOpt (analyze_outcome oc kw sv now)).toList, ?_⟩
    show (analyze_neighborhood_beauty_search st oc kw sv now).1 = _
    rw [analyze_step_form]
  | top n => exact ⟨[], (List.append_nil st).symm⟩
  | exportCsv f => exact ⟨[], (List.append_nil st).symm⟩
  | exportJson f => exact ⟨[], (List.append_nil st).symm⟩
  | printReport => exact ⟨[], (List.append_nil st).symm⟩

/-- Every record a single operation appends satisfies the score/max
consistency invariant, and existing records are untouched. -/
theorem step_invariant (st : List ResultRec) (op : Op)
    (h : ∀ r ∈ st, ScoreInvariant r) : ∀ r ∈ step st op, ScoreInvariant r := by
  cases op with
  | analyze oc kw sv now =>
    show ∀ r ∈ (analyze_neighborhood_beauty_search st oc kw sv now).1, ScoreInvariant r
    rw [analyze_step_form]
    intro r hr
    rcases List.mem_append.mp hr with hr | hr
    · exact h r hr
    · cases oc with
      | failure => simp [analyze_outcome, analyze_neighborhood_beauty_search,
          search_beauty_trends, scoredOpt] at hr
      | success iot region =>
        cases hcol : dfColumn iot kw with
        | none =>
          simp [analyze_outcome, analyze_neighborhood_beauty_search,
            search_beauty_trends, scoredOpt, hcol] at hr
        | some series =>
          by_cases hs : series.isEmpty
          · simp [analyze_outcome, analyze_neighborhood_beauty_search,
              search_beauty_trends, scoredOpt, hcol, hs] at hr
          · have hne : series ≠ [] := by
              intro hnil; rw [hnil] at hs; exact hs rfl
            simp only [analyze_outcome, analyze_neighborhood_beauty_search,
              search_beauty_trends, scoredOpt, hcol, hs] at hr
            simp only [Bool.false_eq_true, if_false, Option.toList_some,
              List.mem_singleton] at hr
            subst hr
            exact ⟨series, hcol, hne, rfl, rfl, seriesMax_mem series hne,
              le_seriesMax series⟩
  | top n => exact h
  | exportCsv f => exact h
  | exportJson f => exact h
  | printReport => exact h

/-- The step invariant propagated along a whole operation trace. -/
theorem foldl_invariant (ops : List Op) (st : List ResultRec)
    (h : ∀ r ∈ st, ScoreInvariant r) :
    ∀ r ∈ List.foldl step st ops, ScoreInvariant r := by
  induction ops generalizing st with
  | nil => exact h
  | cons op rest ih => exact ih (step st op) (step_invariant st op h)

/-- A whole operation trace only ever appends to the accumulated results. -/
theorem foldl_extends (ops : List Op) (st : List ResultRec) :
    ∃ tail, List.foldl step st ops = st ++ tail := by
  induction ops generalizing st with
  | nil => exact ⟨[], (List.append_nil st).symm⟩
  | cons op rest ih =>
    obtain ⟨t1, h1⟩ := step_extends st op
    obtain ⟨t2, h2⟩ := ih (step st op)
    exact ⟨t1 ++ t2, by rw [List.foldl_cons, h2, h1, List.append_assoc]⟩

/-- C4: after any sequence of operations on a fresh analyzer, every record in
the ResultSet has `interest_score` equal to the arithmetic mean of its raw
series and `max_interest` equal to that series' maximum sample, and any
further operations only append after the existing records — no operation ever
changes a stored record. -/
theorem C4_score_max_consistency (ops : List Op) :
    (∀ r ∈ run_ops ops, ScoreInvariant r)
    ∧ (∀ more, ∃ tail, run_ops (ops ++ more) = run_ops ops ++ tail) := by
  constructor
  · exact foldl_invariant ops []
      (fun r hr => absurd hr (List.not_mem_nil r))
  · intro more
    rw [run_ops, List.foldl_append]
    exact foldl_extends more (run_ops ops)

/-- C4 witness: the record appended by the sample trace satisfies the
consistency invariant. -/
theorem C4_score_max_consistency_witness : ScoreInvariant sampleResult :=
  (C4_score_max_consistency sampleOps).1 sampleResult (by
    show sampleResult ∈ [sampleResult]
    exact List.mem_singleton.mpr rfl)

/-- C7: when the provider call fails, `analyze_neighborhood_beauty_search`
returns a null result (`skipped`) instead of raising, the ResultSet is left
unchanged, and the batch loop goes on with the remaining keywords, collecting
nothing for the failed one (only the call log records it). -/
theorem C7_provider_failure_skips (st : List ResultRec) (kw : String) (sv : Int)
    (now : Nat) (rest : List (String × ProviderOutcome)) :
    analyze_neighborhood_beauty_search st ProviderOutcome.failure kw sv now
      = (st, AnalyzeOutcome.skipped, 0)
    ∧ (run_keywords st ((kw, ProviderOutcome.failure) :: rest) now).1
        = (run_keywords st rest now).1
    ∧ (run_keywords st ((kw, ProviderOutcome.failure) :: rest) now).2.1
        = (run_keywords st rest now).2.1
    ∧ (run_keywords st ((kw, ProviderOutcome.failure) :: rest) now).2.2
        = kw :: (run_keywords st rest now).2.2 := by
  refine ⟨rfl, ?_⟩
  have ha : analyze_neighborhood_beauty_search st ProviderOutcome.failure kw 100 now
      = (st, AnalyzeOutcome.skipped, 0) := rfl
  rcases h : run_keywords st rest now with ⟨resF, out, calls⟩
  simp [run_keywords, ha, h]

/-- Transitivity of the descending-score comparator. -/
theorem scoreDescLe_trans : ∀ a b c : ResultRec,
    scoreDescLe a b → scoreDescLe b c → scoreDescLe a c := by
  intro a b c hab hbc
  simp only [scoreDescLe, decide_eq_true_eq] at hab hbc ⊢
  exact le_trans hbc hab

/-- Totality of the descending-score comparator. -/
theorem scoreDescLe_total : ∀ a b : ResultRec,
    scoreDescLe a b || scoreDescLe b a := by
  intro a b
  simp only [scoreDescLe, Bool.or_eq_true, decide_eq_true_eq]
  exact le_total b.interest_score a.interest_score

/-- Stability of the modelled `sorted(..., reverse=True)`: the records
holding any given score appear in the sorted list exactly in their original
relative order. -/
theorem mergeSort_filter_score (st : List ResultRec) (q : ℚ) :
    (st.mergeSort scoreDescLe).filter (fun r => decide (r.interest_score = q))
      = st.filter (fun r => decide (r.interest_score = q)) := by
  have hall : ∀ a ∈ st.filter (fun r => decide (r.interest_score = q)),
      ∀ b ∈ st.filter (fun r => decide (r.interest_score = q)), scoreDescLe a b := by
    intro a ha b hb
    have ha2 := List.of_mem_filter ha
    have hb2 := List.of_mem_filter hb
    simp only [decide_eq_true_eq] at ha2 hb2
    simp only [scoreDescLe, decide_eq_true_eq, ha2, hb2]
    exact le_refl q
  have hsub : List.Sublist (st.filter (fun r => decide (r.interest_score = q)))
      (st.mergeSort scoreDescLe) :=
    List.sublist_mergeSort scoreDescLe_trans scoreDescLe_total
      (List.pairwise_of_forall_mem_list hall) (List.filter_sublist st)
  have hsub2 : List.Sublist (st.filter (fun r => decide (r.interest_score = q)))
      ((st.mergeSort scoreDescLe).filter (fun r => decide (r.interest_score = q))) := by
    have h2 := hsub.filter (fun r => decide (r.interest_score = q))
    have heq : (st.filter (fun r => decide (r.interest_score = q))).filter
        (fun r => decide (r.interest_score = q))
        = st.filter (fun r => decide (r.interest_score = q)) := by
      apply List.filter_eq_self.mpr
      intro a ha
      exact (List.mem_filter.mp ha).2
    rwa [heq] at h2
  have hperm : List.Perm
      ((st.mergeSort scoreDescLe).filter (fun r => decide (r.interest_score = q)))
      (st.filter (fun r => decide (r.interest_score = q))) :=
    (List.mergeSort_perm st scoreDescLe).filter _
  exact (hsub2.eq_of_length hperm.length_eq.symm).symm

/-- C5: `get_top_beauty_trends` returns up to `n` records, sorted by
descending interest score with ties kept in insertion order (stable sort),
returns an empty list on an empty ResultSet or `n = 0`, leaves the stored
results unchanged, and in particular two records with equal score inserted
A then B come back as [A, B]. -/
theorem C5_top_n (st : List ResultRec) (n : Nat) :
    ((st = [] → get_top_beauty_trends st n = [])
    ∧ get_top_beauty_trends st 0 = []
    ∧ (get_top_beauty_trends st n).length = min n st.length
    ∧ (get_top_beauty_trends st n).Pairwise
        (fun a b => b.interest_score ≤ a.interest_score)
    ∧ (∀ r ∈ get_top_beauty_trends st n, r ∈ st)
    ∧ (∀ q : ℚ,
        (st.mergeSort scoreDescLe).filter (fun r => decide (r.interest_score = q))
          = st.filter (fun r => decide (r.interest_score = q)))
    ∧ step st (Op.top n) = st)
    ∧ (∀ A B : ResultRec, A.interest_score = 80 → B.interest_score = 80 →
        get_top_beauty_trends [A, B] 2 = [A, B]) := by
  constructor
  · by_cases he : st.isEmpty
    · have hst : st = [] := by simpa [List.isEmpty_iff] using he
      subst hst
      exact ⟨fun _ => rfl, rfl, by simp [get_top_beauty_trends],
        by simp [get_top_beauty_trends], by simp [get_top_beauty_trends],
        fun q => by simp, rfl⟩
    · have hne : ¬ st = [] := by simpa [List.isEmpty_iff] using he
      have hget : get_top_beauty_trends st n = (st.mergeSort scoreDescLe).take n := by
        rw [get_top_beauty_trends, if_neg (by simpa using hne)]
      refine ⟨fun h => absurd h hne, ?_, ?_, ?_, ?_, fun q => mergeSort_filter_score st q, rfl⟩
      · rw [get_top_beauty_trends, if_neg (by simpa using hne)]
        exact List.take_zero _
      · rw [hget, List.length_take, List.length_mergeSort]
      · rw [hget]
        have hsorted : (st.mergeSort scoreDescLe).Pairwise
            (fun a b => b.interest_score ≤ a.interest_score) := by
          refine (List.sorted_mergeSort scoreDescLe_trans scoreDescLe_total st).imp ?_
          intro a b hab
          simpa [scoreDescLe] using hab
        exact hsorted.sublist (List.take_sublist n _)
      · intro r hr
        rw [hget] at hr
        exact List.mem_mergeSort.mp (List.take_subset n _ hr)
  · intro A B hA hB
    have hsorted : List.Pairwise (fun a b => scoreDescLe a b) [A, B] := by
      simp [scoreDescLe, hA, hB]
    rw [get_top_beauty_trends, if_neg (by simp),
      List.mergeSort_of_sorted hsorted]
    rfl

/-- C5 witness: the equal-score tie scenario at two concrete records with
interest score 80, inserted A then B. -/
theorem C5_top_n_witness :
    get_top_beauty_trends [resA, resB] 2 = [resA, resB] :=
  (C5_top_n [] 0).2 resA resB rfl rfl

/-- A completed batch run called every keyword in order, collected exactly
the scored outcomes in order, and appended exactly those records. -/
theorem run_keywords_ok (jobs : List (String × ProviderOutcome))
    (st stF coll : List ResultRec) (calls : List String) (now : Nat)
    (h : run_keywords st jobs now = (stF, .ok coll, calls)) :
    calls = jobs.map (fun j => j.1)
    ∧ coll = jobs.filterMap (fun j => scoredOpt (analyze_outcome j.2 j.1 100 now))
    ∧ stF = st ++ coll := by
  induction jobs generalizing st stF coll calls with
  | nil =>
    rw [run_keywords] at h
    simp only [Prod.mk.injEq, Except.ok.injEq] at h
    obtain ⟨rfl, rfl, rfl⟩ := h
    exact ⟨rfl, rfl, (List.append_nil st).symm⟩
  | cons j rest ih =>
    obtain ⟨kw, oc⟩ := j
    rw [run_keywords, analyze_step_form] at h
    cases hao : analyze_outcome oc kw 100 now with
    | crashed e =>
      rw [hao] at h
      simp only [Prod.mk.injEq] at h
      exact absurd h.2.1 (fun hc => Except.noConfusion hc)
    | skipped =>
      rw [hao] at h
      simp only [scoredOpt, Option.toList_none, List.append_nil] at h
      rcases hin : run_keywords st rest now with ⟨resF, out, calls2⟩
      rw [hin] at h
      have h4 : resF = stF := congrArg (fun t => t.1) h
      have h5 : out = Except.ok coll := congrArg (fun t => t.2.1) h
      have h6 : kw :: calls2 = calls := congrArg (fun t => t.2.2) h
      subst h4
      subst h5
      subst h6
      obtain ⟨h1, h2, h3⟩ := ih st resF coll calls2 hin
      refine ⟨?_, ?_, h3⟩
      · rw [List.map_cons, ← h1]
      · rw [List.filterMap_cons, hao]
        simpa [scoredOpt] using h2
    | scored r =>
      rw [hao] at h
      simp only [scoredOpt, Option.toList_some] at h
      rcases hin : run_keywords (st ++ [r]) rest now with ⟨resF, out, calls2⟩
      rw [hin] at h
      cases out with
      | error e =>
        have h5 : Except.error e = Except.ok coll := congrArg (fun t => t.2.1) h
        exact absurd h5 (fun hc => Except.noConfusion hc)
      | ok coll2 =>
        have h4 : resF = stF := congrArg (fun t => t.1) h
        have h5 : Except.ok (r :: coll2) = Except.ok coll :=
          congrArg (fun t => t.2.1) h
        have h5b : r :: coll2 = coll := by
          injection h5
        have h6 : kw :: calls2 = calls := congrArg (fun t => t.2.2) h
        subst h4
        subst h5b
        subst h6
        obtain ⟨h1, h2, h3⟩ := ih (st ++ [r]) resF coll2 calls2 hin
        refine ⟨?_, ?_, ?_⟩
        · rw [List.map_cons, ← h1]
        · rw [List.filterMap_cons, hao]
          show r :: coll2
            = r :: List.filterMap (fun j => scoredOpt (analyze_outcome j.2 j.1 100 now)) rest
          rw [h2]
        · rw [h3, List.append_assoc]
          rfl

/-- C8: `search_multiple_beauty_keywords` iterates the given keywords in
order (the default 8-item vocabulary when none are given), calls the
analysis once per keyword, and — when the batch completes — returns exactly
the non-null results in input order, which is also the order in which they
were appended to the ResultSet. -/
theorem C8_analyze_many (st : List ResultRec) (keywords : Option (List String))
    (provider : String → ProviderOutcome) (now : Nat)
    (stF coll : List ResultRec) (calls : List String)
    (h : search_multiple_beauty_keywords st keywords provider now
      = (stF, .ok coll, calls)) :
    calls = effective_keywords keywords
    ∧ coll = (effective_keywords keywords).filterMap
        (fun kw => scoredOpt (analyze_outcome (provider kw) kw 100 now))
    ∧ stF = st ++ coll
    ∧ effective_keywords none = default_keywords
    ∧ default_keywords.length = 8 := by
  rw [search_multiple_beauty_keywords] at h
  obtain ⟨h1, h2, h3⟩ := run_keywords_ok _ _ _ _ _ _ h
  refine ⟨?_, ?_, h3, rfl, rfl⟩
  · rw [h1, List.map_map]
    have hcomp : ((fun j : String × ProviderOutcome => j.1)
        ∘ fun kw => (kw, provider kw)) = id := rfl
    rw [hcomp, List.map_id]
  · rw [h2, List.filterMap_map]
    rfl

/-- C8 witness: a one-keyword batch whose provider call fails completes with
that keyword called, nothing collected, and the state unchanged. -/
theorem C8_analyze_many_witness :
    ["acne"] = effective_keywords (some ["acne"])
    ∧ ([] : List ResultRec) = (effective_keywords (some ["acne"])).filterMap
        (fun kw => scoredOpt (analyze_outcome ProviderOutcome.failure kw 100 0))
    ∧ ([] : List ResultRec) = [] ++ []
    ∧ effective_keywords none = default_keywords
    ∧ default_keywords.length = 8 :=
  C8_analyze_many [] (some ["acne"]) (fun _ => ProviderOutcome.failure) 0 [] [] ["acne"] rfl

/-- Transitivity of the descending comparator on CSV rows. -/
theorem csvRowLe_trans : ∀ a b c : CsvRow,
    csvRowLe a b → csvRowLe b c → csvRowLe a c := by
  intro a b c hab hbc
  simp only [csvRowLe, decide_eq_true_eq] at hab hbc ⊢
  exact le_trans hbc hab

/-- Totality of the descending comparator on CSV rows. -/
theorem csvRowLe_total : ∀ a b : CsvRow, csvRowLe a b || csvRowLe b a := by
  intro a b
  simp only [csvRowLe, Bool.or_eq_true, decide_eq_true_eq]
  exact le_total b.score_de_interesse a.score_de_interesse

/-- C9: the CSV export writes nothing and returns null on an empty
ResultSet; otherwise it returns the filename and its rows are exactly one
row per entry (score rounded to two decimals), sorted by descending score. -/
theorem C9_export_csv (st : List ResultRec) (filename : String) :
    (st = [] → export_to_csv st filename = (none, []))
    ∧ (st ≠ [] → (export_to_csv st filename).1 = some filename)
    ∧ (export_to_csv st filename).2.Perm (st.map csvRowOf)
    ∧ (export_to_csv st filename).2.Pairwise
        (fun a b => b.score_de_interesse ≤ a.score_de_interesse)
    ∧ (∀ r : ResultRec, (csvRowOf r).score_de_interesse = round2 r.interest_score) := by
  by_cases he : st = []
  · subst he
    exact ⟨fun _ => rfl, fun h => absurd rfl h, List.Perm.refl _,
      List.Pairwise.nil, fun r => rfl⟩
  · have hrows : (export_to_csv st filename).2
        = (st.map csvRowOf).mergeSort csvRowLe := by
      rw [export_to_csv, if_neg (by simpa using he)]
    refine ⟨fun h => absurd h he, ?_, ?_, ?_, fun r => rfl⟩
    · intro _
      rw [export_to_csv, if_neg (by simpa using he)]
    · rw [hrows]
      exact List.mergeSort_perm (st.map csvRowOf) csvRowLe
    · rw [hrows]
      refine (List.sorted_mergeSort csvRowLe_trans csvRowLe_total _).imp ?_
      intro a b hab
      simpa [csvRowLe] using hab

/-- C9 witness: exporting a singleton ResultSet returns the filename. -/
theorem C9_export_csv_witness :
    (export_to_csv [resA] "beauty_trends_analysis.csv").1
      = some "beauty_trends_analysis.csv" :=
  (C9_export_csv [resA] "beauty_trends_analysis.csv").2.1 (by simp)

end GeoTrend
